import Mathlib

/-!
Verification of the datamind process supervisor and output-streaming
subsystem.  The definitions below are a shallow embedding of the
JavaScript source:

* `setupProcessManager` (registry, task history, `executeTask`,
  `stopTask`, `getTaskIdFromRunningProcess`) from the process-manager
  module;
* `emitTaskOutput` (100 ms debounced output aggregation) from
  `src/monitor/modules/taskOutput.js`;
* the `SIGINT` shutdown handler from `src/monitor/server.js`.

JavaScript process objects are modelled by a `handle` field that stands
for object identity (the `activeProcesses` `Set` stores object
references, so two distinct objects are distinct members even when all
their fields coincide).  Timers are modelled by explicit timestamps in
milliseconds.  POSIX (`process.platform !== 'win32'`) is the platform
modelled throughout.
-/

namespace Datamind

/-- Model of a spawned child-process object: `handle` is JS object
identity, `taskId` is the `proc.taskId` property set by `executeTask`,
`pid` is the OS process id. -/
structure Proc where
  handle : Nat
  taskId : String
  pid : Nat
deriving DecidableEq, Repr

/-- Model of `addProcess`: `activeProcesses.add(process)` — JS `Set.add`
is a no-op when the same object is already a member. -/
def addProcess (reg : List Proc) (p : Proc) : List Proc :=
  if reg.any (fun q => q.handle = p.handle) then reg else reg ++ [p]

/-- Model of `removeProcess`: `activeProcesses.delete(process)`. -/
def removeProcess (reg : List Proc) (p : Proc) : List Proc :=
  reg.filter (fun q => q.handle ≠ p.handle)

/-- The task id chosen at the top of `executeTask`: a freshly generated
id in `new` mode, the caller-supplied `alchemy_id` otherwise. -/
def execTaskId (mode alchemy_id fresh : String) : String :=
  if mode = "new" then fresh else alchemy_id

/-- The registry effect of the synchronous part of `executeTask`
(lines spawning the worker, then `proc.taskId = taskId;
this.addProcess(proc)`): the spawned process object is registered
unconditionally — there is no check that an entry with the same task id
is already live. -/
def execSpawnStep (reg : List Proc) (mode alchemy_id fresh : String)
    (handle pid : Nat) : List Proc × Proc :=
  let taskId := execTaskId mode alchemy_id fresh
  let p : Proc := ⟨handle, taskId, pid⟩
  (addProcess reg p, p)

/-! ### Bounded task-output history (`addTaskHistory`) -/

/-- Maximum number of history entries kept per task
(`MAX_HISTORY_ITEMS = 1000`). -/
def MAX_HISTORY_ITEMS : Nat := 1000

/-- One element of `taskOutputHistory[alchemy_id]`. -/
structure HistEntry where
  output : String
  isError : Bool
  timestamp : Nat
deriving DecidableEq, Repr

/-- Suffix of the last `n` elements of a list — the model of the
JavaScript `array.slice(-n)`. -/
def lastN (n : Nat) (l : List HistEntry) : List HistEntry :=
  l.drop (l.length - n)

/-- Model of `addTaskHistory(alchemy_id, output, isError)`: a falsy id
(the empty string) is rejected; otherwise the entry is pushed onto the
task's list and, when the length exceeds `MAX_HISTORY_ITEMS`, only the
most recent `MAX_HISTORY_ITEMS` entries are kept (`slice(-MAX)`). The
whole `taskOutputHistory` object is modelled as a total function from
ids to lists, empty lists standing for absent keys. -/
def addTaskHistory (st : String → List HistEntry) (id : String)
    (e : HistEntry) : String → List HistEntry := fun k =>
  if id = "" then st k
  else if k = id then
    let h := st id ++ [e]
    if h.length > MAX_HISTORY_ITEMS then lastN MAX_HISTORY_ITEMS h else h
  else st k

/-- One recorded call to `addTaskHistory`. -/
structure HistCall where
  id : String
  entry : HistEntry
deriving DecidableEq, Repr

/-- The history map after a sequence of `addTaskHistory` calls starting
from the empty store. -/
def runHistory (calls : List HistCall) : String → List HistEntry :=
  calls.foldl (fun st c => addTaskHistory st c.id c.entry) (fun _ => [])

/-- Entries appended for task `k` by a call sequence, in call order
(calls with a falsy id are dropped by `addTaskHistory`). -/
def appendedFor (k : String) (calls : List HistCall) : List HistEntry :=
  (calls.filter (fun c => c.id == k && c.id != "")).map HistCall.entry

theorem length_lastN (n : Nat) (l : List HistEntry) :
    (lastN n l).length = l.length - (l.length - n) := by
  simp [lastN]

theorem lastN_of_le (n : Nat) (l : List HistEntry) (h : l.length ≤ n) :
    lastN n l = l := by
  simp [lastN, Nat.sub_eq_zero_of_le h]

/-- Key step: capping after an append agrees with taking the last
`MAX_HISTORY_ITEMS` elements of the full appended sequence. -/
theorem capAppend_lastN (xs : List HistEntry) (e : HistEntry) :
    (let h := lastN MAX_HISTORY_ITEMS xs ++ [e]
     if h.length > MAX_HISTORY_ITEMS then lastN MAX_HISTORY_ITEMS h else h) =
    lastN MAX_HISTORY_ITEMS (xs ++ [e]) := by
  have hM : MAX_HISTORY_ITEMS = 1000 := rfl
  show (if (lastN MAX_HISTORY_ITEMS xs ++ [e]).length > MAX_HISTORY_ITEMS
        then lastN MAX_HISTORY_ITEMS (lastN MAX_HISTORY_ITEMS xs ++ [e])
        else lastN MAX_HISTORY_ITEMS xs ++ [e]) =
      lastN MAX_HISTORY_ITEMS (xs ++ [e])
  by_cases hge : MAX_HISTORY_ITEMS ≤ xs.length
  · have hlast : (lastN MAX_HISTORY_ITEMS xs).length = MAX_HISTORY_ITEMS := by
      rw [length_lastN]; omega
    have hover : (lastN MAX_HISTORY_ITEMS xs ++ [e]).length > MAX_HISTORY_ITEMS := by
      simp only [List.length_append, List.length_singleton, hlast]; omega
    rw [if_pos hover]
    unfold lastN
    rw [List.length_append, List.length_singleton, List.length_drop,
        List.length_append, List.length_singleton]
    have h5 : xs.length - (xs.length - MAX_HISTORY_ITEMS) + 1 - MAX_HISTORY_ITEMS = 1 := by
      omega
    have h6 : xs.length + 1 - MAX_HISTORY_ITEMS = (xs.length - MAX_HISTORY_ITEMS) + 1 := by
      omega
    rw [h5, h6]
    have hd1 : (1 : Nat) ≤ (List.drop (xs.length - MAX_HISTORY_ITEMS) xs).length := by
      rw [List.length_drop]; omega
    have hd2 : xs.length - MAX_HISTORY_ITEMS + 1 ≤ xs.length := by omega
    rw [List.drop_append_of_le_length hd1, List.drop_append_of_le_length hd2]
    rw [List.drop_drop]
  · push_neg at hge
    have h1 : xs.length ≤ MAX_HISTORY_ITEMS := le_of_lt hge
    rw [lastN_of_le _ _ h1]
    have h2 : (xs ++ [e]).length ≤ MAX_HISTORY_ITEMS := by
      rw [List.length_append, List.length_singleton]; omega
    rw [lastN_of_le _ _ h2, if_neg (Nat.not_lt.mpr h2)]

theorem appendedFor_cons (k : String) (c : HistCall) (rest : List HistCall) :
    appendedFor k (c :: rest) =
      (if c.id = k ∧ ¬ c.id = "" then [c.entry] else []) ++ appendedFor k rest := by
  unfold appendedFor
  by_cases h : c.id = k ∧ ¬ c.id = ""
  · have hb : (c.id == k && c.id != "") = true := by
      simp only [Bool.and_eq_true, beq_iff_eq, bne_iff_ne, ne_eq]
      exact h
    rw [if_pos h]
    simp [List.filter_cons, hb]
  · have hb : (c.id == k && c.id != "") = false := by
      cases hcc : (c.id == k && c.id != "") with
      | false => rfl
      | true =>
        simp only [Bool.and_eq_true, beq_iff_eq, bne_iff_ne, ne_eq] at hcc
        exact absurd hcc h
    rw [if_neg h]
    simp [List.filter_cons, hb]

theorem addTaskHistory_self (st : String → List HistEntry) (id : String)
    (e : HistEntry) (h : ¬ id = "") :
    addTaskHistory st id e id =
      (let l := st id ++ [e]
       if l.length > MAX_HISTORY_ITEMS then lastN MAX_HISTORY_ITEMS l else l) := by
  unfold addTaskHistory
  rw [if_neg h, if_pos rfl]

theorem addTaskHistory_other (st : String → List HistEntry) (id : String)
    (e : HistEntry) (k : String) (h : ¬ k = id) :
    addTaskHistory st id e k = st k := by
  unfold addTaskHistory
  by_cases hid : id = ""
  · rw [if_pos hid]
  · rw [if_neg hid, if_neg h]

theorem addTaskHistory_falsy (st : String → List HistEntry) (e : HistEntry)
    (k : String) :
    addTaskHistory st "" e k = st k := by
  unfold addTaskHistory
  rw [if_pos rfl]

theorem runHistory_general (calls : List HistCall) :
    ∀ (st A : String → List HistEntry),
      (∀ k, st k = lastN MAX_HISTORY_ITEMS (A k)) →
      ∀ k, (calls.foldl (fun st c => addTaskHistory st c.id c.entry) st) k =
        lastN MAX_HISTORY_ITEMS (A k ++ appendedFor k calls) := by
  induction calls with
  | nil =>
    intro st A hst k
    simp [appendedFor, hst]
  | cons c rest ih =>
    intro st A hst k
    rw [List.foldl_cons]
    rw [ih (addTaskHistory st c.id c.entry)
        (fun j => A j ++ (if c.id = j ∧ ¬ c.id = "" then [c.entry] else [])) ?_ k]
    · rw [appendedFor_cons, ← List.append_assoc]
    · intro j
      show addTaskHistory st c.id c.entry j =
        lastN MAX_HISTORY_ITEMS (A j ++ if c.id = j ∧ ¬ c.id = "" then [c.entry] else [])
      by_cases hid : c.id = ""
      · rw [hid, addTaskHistory_falsy]
        have hcond : ¬ ("" = j ∧ ¬ ("" : String) = "") := by
          rintro ⟨-, hc⟩
          exact hc rfl
        rw [if_neg hcond, List.append_nil]
        exact hst j
      · by_cases hj : j = c.id
        · rw [hj, addTaskHistory_self st c.id c.entry hid]
          have hcond : c.id = c.id ∧ ¬ c.id = "" := ⟨rfl, hid⟩
          rw [if_pos hcond, hst c.id]
          exact capAppend_lastN (A c.id) c.entry
        · rw [addTaskHistory_other st c.id c.entry j hj]
          have hcond : ¬ (c.id = j ∧ ¬ c.id = "") := by
            rintro ⟨hc, -⟩
            exact hj hc.symm
          rw [if_neg hcond, List.append_nil]
          exact hst j

/-- C3: for every task id and every sequence of `addTaskHistory` calls,
the task's history list equals exactly the most recent at-most-1000
appended entries in append order (strictly FIFO eviction of the oldest
entries), and in particular never exceeds `MAX_HISTORY_ITEMS = 1000`
entries. -/
theorem C3_history_bounded_fifo (calls : List HistCall) (k : String) :
    runHistory calls k = lastN MAX_HISTORY_ITEMS (appendedFor k calls) ∧
    (runHistory calls k).length ≤ MAX_HISTORY_ITEMS := by
  have h := runHistory_general calls (fun _ => []) (fun _ => [])
    (fun j => by simp [lastN]) k
  simp only [List.nil_append] at h
  unfold runHistory
  refine ⟨h, ?_⟩
  rw [h, length_lastN]
  omega

/-! ### The `executeTask` promise and its event handlers

`executeTask` returns `new Promise((resolve, reject) => ...)`: the
synchronous body spawns the worker and registers it, then three
callbacks can fire, in any order determined by the runtime:

* `proc.on('close', ...)` — records the exit (the runtime sets
  `proc.exitCode` before `close` fires), removes the process from the
  registry, emits a completion broadcast; it neither resolves nor
  rejects the promise;
* `proc.on('error', ...)` — emits an error output, removes the process
  from the registry and rejects the promise;
* the 500 ms `setTimeout` — resolves with the task id if
  `proc.exitCode === null` (the process has not exited), else does
  nothing.

A promise settles at most once: the first `resolve`/`reject` wins. -/

/-- Settlement of the promise returned by `executeTask`. -/
inductive Settle where
  | resolved (id : String)
  | rejected (msg : String)
deriving DecidableEq, Repr

/-- Asynchronous events that can reach one `executeTask` invocation. -/
inductive ExecEvent where
  | closeEv (code : Int)
  | errorEv (msg : String)
  | timeout500
deriving DecidableEq, Repr

/-- State of one `executeTask` invocation: the active-process registry,
the worker's `proc.exitCode` (`none` models JS `null`), the promise
settlement, and the `emitTaskOutput(taskId, text, isError)` calls made
so far. -/
structure ExecState where
  reg : List Proc
  exitCode : Option Int
  settled : Option Settle
  outputs : List (String × String × Bool)
deriving DecidableEq, Repr

/-- State right after the synchronous body of `executeTask` ran: the
spawned process object is already in the registry (`this.addProcess(proc)`
at spawn time), the worker has not exited, nothing is settled yet. -/
def execInit (reg0 : List Proc) (mode alchemy_id fresh : String)
    (handle pid : Nat) : ExecState × Proc :=
  let rp := execSpawnStep reg0 mode alchemy_id fresh handle pid
  ({ reg := rp.1, exitCode := none, settled := none, outputs := [] }, rp.2)

/-- Effect of one event on the state of an `executeTask` invocation for
process `p` with task id `tid`.  `Option.getD` encodes first-settlement-
wins.  (`close` additionally emits a completion broadcast through
`io.emit` directly; only `emitTaskOutput` calls are recorded in
`outputs`.) -/
def execStep (p : Proc) (tid : String) (s : ExecState) : ExecEvent → ExecState
  | ExecEvent.closeEv code =>
      { s with exitCode := some code, reg := removeProcess s.reg p }
  | ExecEvent.errorEv m =>
      { s with reg := removeProcess s.reg p,
               outputs := s.outputs ++ [(tid, "任务进程错误: " ++ m, true)],
               settled := some (s.settled.getD (Settle.rejected m)) }
  | ExecEvent.timeout500 =>
      if s.exitCode = none then
        { s with settled := some (s.settled.getD (Settle.resolved tid)) }
      else s

/-- Replay a sequence of events against an `executeTask` invocation. -/
def execRun (p : Proc) (tid : String) (s : ExecState)
    (evs : List ExecEvent) : ExecState :=
  evs.foldl (execStep p tid) s

theorem execStep_close (p : Proc) (tid : String) (s : ExecState) (c : Int) :
    execStep p tid s (ExecEvent.closeEv c) =
      { s with exitCode := some c, reg := removeProcess s.reg p } := rfl

theorem execStep_error (p : Proc) (tid : String) (s : ExecState) (m : String) :
    execStep p tid s (ExecEvent.errorEv m) =
      { s with reg := removeProcess s.reg p,
               outputs := s.outputs ++ [(tid, "任务进程错误: " ++ m, true)],
               settled := some (s.settled.getD (Settle.rejected m)) } := rfl

theorem execStep_timeout (p : Proc) (tid : String) (s : ExecState) :
    execStep p tid s ExecEvent.timeout500 =
      if s.exitCode = none then
        { s with settled := some (s.settled.getD (Settle.resolved tid)) }
      else s := rfl

/-! ### C1: per-task-id uniqueness in the registry -/

/-- C1 counterexample: two `executeTask` calls in `continue` mode with
the same `alchemy_id = "X"` (both workers still live) leave two distinct
registry entries carrying the same task id — `executeTask` registers its
process unconditionally, with no duplicate-id check, so the claimed
invariant fails. -/
theorem C1_counterexample :
    (execSpawnStep (execSpawnStep [] "continue" "X" "f0" 0 100).1
        "continue" "X" "f1" 1 101).1 =
      [⟨0, "X", 100⟩, ⟨1, "X", 101⟩] ∧
    (⟨0, "X", 100⟩ : Proc) ≠ ⟨1, "X", 101⟩ ∧
    Proc.taskId ⟨0, "X", 100⟩ = Proc.taskId ⟨1, "X", 101⟩ := by
  refine ⟨by decide, by decide, rfl⟩

/-- Registry operations available on `activeProcesses`. -/
inductive RegOp where
  | add (p : Proc)
  | remove (p : Proc)
  | spawn (mode alchemy_id fresh : String) (handle pid : Nat)
deriving DecidableEq, Repr

/-- Apply one registry operation. -/
def applyRegOp (reg : List Proc) : RegOp → List Proc
  | RegOp.add p => addProcess reg p
  | RegOp.remove p => removeProcess reg p
  | RegOp.spawn mode alc fresh handle pid =>
      (execSpawnStep reg mode alc fresh handle pid).1

/-- Registry after a sequence of operations starting from the empty
set. -/
def runRegOps (ops : List RegOp) : List Proc := ops.foldl applyRegOp []

theorem nodup_addProcess (reg : List Proc) (p : Proc)
    (h : (reg.map Proc.handle).Nodup) :
    ((addProcess reg p).map Proc.handle).Nodup := by
  unfold addProcess
  split
  · exact h
  · rename_i hany
    rw [List.map_append, List.map_singleton]
    rw [List.nodup_append]
    refine ⟨h, List.nodup_singleton _, ?_⟩
    intro a ha hb
    rw [List.mem_singleton] at hb
    subst hb
    obtain ⟨q, hq, hqh⟩ := List.mem_map.mp ha
    exact hany (List.any_eq_true.mpr ⟨q, hq, by simp [hqh]⟩)

theorem nodup_removeProcess (reg : List Proc) (p : Proc)
    (h : (reg.map Proc.handle).Nodup) :
    ((removeProcess reg p).map Proc.handle).Nodup :=
  h.sublist ((List.filter_sublist reg).map Proc.handle)

theorem nodup_applyRegOp (reg : List Proc) (op : RegOp)
    (h : (reg.map Proc.handle).Nodup) :
    ((applyRegOp reg op).map Proc.handle).Nodup := by
  cases op with
  | add p => exact nodup_addProcess reg p h
  | remove p => exact nodup_removeProcess reg p h
  | spawn mode alc fresh handle pid => exact nodup_addProcess reg _ h

/-- C1 amended: the `activeProcesses` registry is a JS `Set` of process
objects, so the only uniqueness it maintains is of process objects
themselves (object identity, modelled by `handle`): after any sequence
of `addProcess` / `removeProcess` / `executeTask`-spawn operations, no
process object occurs twice.  Per-task-id uniqueness is NOT enforced:
`executeTask` registers its freshly spawned process unconditionally,
so two live entries sharing one task id can coexist. -/
theorem C1_registry_object_uniqueness (ops : List RegOp) :
    ((runRegOps ops).map Proc.handle).Nodup := by
  suffices h : ∀ (ops : List RegOp) (reg : List Proc),
      (reg.map Proc.handle).Nodup →
      ((ops.foldl applyRegOp reg).map Proc.handle).Nodup by
    exact h ops [] (by simp)
  intro ops
  induction ops with
  | nil => intro reg h; exact h
  | cons op rest ih =>
    intro reg h
    exact ih (applyRegOp reg op) (nodup_applyRegOp reg op h)

/-! ### C8: spawn failure -/

/-- C8 counterexample: a spawn failure surfaces as an asynchronous
`error` event, but `this.addProcess(proc)` has already run in the
synchronous body of `executeTask` — so there IS an instant (between
spawn and the delivery of the `error` event) at which the registry
contains an entry for the failed spawn, contradicting the claim that a
registry entry is never created. -/
theorem C8_counterexample :
    (execInit [] "new" "" "task_f0" 0 100).2 ∈
      (execInit [] "new" "" "task_f0" 0 100).1.reg ∧
    (execStep (execInit [] "new" "" "task_f0" 0 100).2 "task_f0"
        (execInit [] "new" "" "task_f0" 0 100).1
        (ExecEvent.errorEv "spawn python ENOENT")).settled =
      some (Settle.rejected "spawn python ENOENT") := by
  exact ⟨by decide, rfl⟩

/-- C8 amended: a spawn failure is reported by rejecting the promise
returned by `executeTask` and emitting an error output event; the
registry entry IS created at spawn time, and it is removed again when
the `error` event fires, so after the failure has been processed the
registry no longer contains the entry. -/
theorem C8_spawn_error_reject_and_cleanup (reg0 : List Proc)
    (mode alc fresh : String) (handle pid : Nat) (m : String)
    (hfresh : ∀ q ∈ reg0, q.handle ≠ handle) :
    (execInit reg0 mode alc fresh handle pid).2 ∈
      (execInit reg0 mode alc fresh handle pid).1.reg ∧
    (execStep (execInit reg0 mode alc fresh handle pid).2
        (execInit reg0 mode alc fresh handle pid).2.taskId
        (execInit reg0 mode alc fresh handle pid).1
        (ExecEvent.errorEv m)).settled = some (Settle.rejected m) ∧
    (execInit reg0 mode alc fresh handle pid).2 ∉
      (execStep (execInit reg0 mode alc fresh handle pid).2
        (execInit reg0 mode alc fresh handle pid).2.taskId
        (execInit reg0 mode alc fresh handle pid).1
        (ExecEvent.errorEv m)).reg ∧
    ((execInit reg0 mode alc fresh handle pid).2.taskId,
      "任务进程错误: " ++ m, true) ∈
      (execStep (execInit reg0 mode alc fresh handle pid).2
        (execInit reg0 mode alc fresh handle pid).2.taskId
        (execInit reg0 mode alc fresh handle pid).1
        (ExecEvent.errorEv m)).outputs := by
  have hmem : (execInit reg0 mode alc fresh handle pid).2 ∈
      (execInit reg0 mode alc fresh handle pid).1.reg := by
    show (⟨handle, execTaskId mode alc fresh, pid⟩ : Proc) ∈
      addProcess reg0 ⟨handle, execTaskId mode alc fresh, pid⟩
    unfold addProcess
    rw [if_neg]
    · exact List.mem_append_right _ (List.mem_singleton_self _)
    · intro hany
      obtain ⟨q, hq, hqh⟩ := List.any_eq_true.mp hany
      exact hfresh q hq (by simpa using hqh)
  refine ⟨hmem, rfl, ?_, ?_⟩
  · show (execInit reg0 mode alc fresh handle pid).2 ∉
      removeProcess (execInit reg0 mode alc fresh handle pid).1.reg
        (execInit reg0 mode alc fresh handle pid).2
    intro hmem2
    unfold removeProcess at hmem2
    have := List.of_mem_filter hmem2
    simp at this
  · show _ ∈ ([] : List (String × String × Bool)) ++
      [((execInit reg0 mode alc fresh handle pid).2.taskId,
        "任务进程错误: " ++ m, true)]
    simp

/-- Closed witness for `C8_spawn_error_reject_and_cleanup` at a concrete
input. -/
theorem C8_spawn_error_witness :
    (execInit [] "new" "" "task_f0" 0 100).2 ∈
      (execInit [] "new" "" "task_f0" 0 100).1.reg ∧
    (execStep (execInit [] "new" "" "task_f0" 0 100).2
        (execInit [] "new" "" "task_f0" 0 100).2.taskId
        (execInit [] "new" "" "task_f0" 0 100).1
        (ExecEvent.errorEv "boom")).settled = some (Settle.rejected "boom") ∧
    (execInit [] "new" "" "task_f0" 0 100).2 ∉
      (execStep (execInit [] "new" "" "task_f0" 0 100).2
        (execInit [] "new" "" "task_f0" 0 100).2.taskId
        (execInit [] "new" "" "task_f0" 0 100).1
        (ExecEvent.errorEv "boom")).reg ∧
    ((execInit [] "new" "" "task_f0" 0 100).2.taskId,
      "任务进程错误: " ++ "boom", true) ∈
      (execStep (execInit [] "new" "" "task_f0" 0 100).2
        (execInit [] "new" "" "task_f0" 0 100).2.taskId
        (execInit [] "new" "" "task_f0" 0 100).1
        (ExecEvent.errorEv "boom")).outputs :=
  C8_spawn_error_reject_and_cleanup [] "new" "" "task_f0" 0 100 "boom"
    (by intro q hq; cases hq)

/-! ### C10: when `executeTask` settles -/

theorem execRun_exitCode_none (p : Proc) (tid : String) :
    ∀ (evs : List ExecEvent) (s : ExecState),
      (execRun p tid s evs).exitCode = none ↔
        s.exitCode = none ∧ ∀ c, ExecEvent.closeEv c ∉ evs := by
  intro evs
  induction evs with
  | nil =>
    intro s
    simp [execRun]
  | cons ev rest ih =>
    intro s
    rw [execRun, List.foldl_cons]
    cases ev with
    | closeEv c =>
      rw [show List.foldl (execStep p tid) (execStep p tid s (ExecEvent.closeEv c)) rest =
        execRun p tid (execStep p tid s (ExecEvent.closeEv c)) rest from rfl, ih]
      constructor
      · rintro ⟨h1, -⟩
        rw [execStep_close] at h1
        exact Option.noConfusion h1
      · rintro ⟨-, h2⟩
        exact absurd (List.mem_cons_self _ _) (h2 c)
    | errorEv m =>
      rw [show List.foldl (execStep p tid) (execStep p tid s (ExecEvent.errorEv m)) rest =
        execRun p tid (execStep p tid s (ExecEvent.errorEv m)) rest from rfl, ih]
      constructor
      · rintro ⟨h1, h2⟩
        refine ⟨h1, ?_⟩
        intro c hc
        rcases List.mem_cons.mp hc with hc | hc
        · exact ExecEvent.noConfusion hc
        · exact h2 c hc
      · rintro ⟨h1, h2⟩
        exact ⟨h1, fun c hc => h2 c (List.mem_cons_of_mem _ hc)⟩
    | timeout500 =>
      have hex : (execStep p tid s ExecEvent.timeout500).exitCode = s.exitCode := by
        rw [execStep_timeout]
        split <;> rfl
      rw [show List.foldl (execStep p tid) (execStep p tid s ExecEvent.timeout500) rest =
        execRun p tid (execStep p tid s ExecEvent.timeout500) rest from rfl, ih, hex]
      constructor
      · rintro ⟨h1, h2⟩
        refine ⟨h1, ?_⟩
        intro c hc
        rcases List.mem_cons.mp hc with hc | hc
        · exact ExecEvent.noConfusion hc
        · exact h2 c hc
      · rintro ⟨h1, h2⟩
        exact ⟨h1, fun c hc => h2 c (List.mem_cons_of_mem _ hc)⟩

theorem execRun_settled_char (p : Proc) (tid : String) :
    ∀ (evs : List ExecEvent) (s : ExecState), s.settled = none →
      (execRun p tid s evs).settled ≠ none →
      (∃ m, ExecEvent.errorEv m ∈ evs) ∨
      ∃ l r, evs = l ++ ExecEvent.timeout500 :: r ∧ s.exitCode = none ∧
        ∀ c, ExecEvent.closeEv c ∉ l := by
  intro evs
  induction evs with
  | nil =>
    intro s hs hne
    exact absurd hs (by simpa [execRun] using hne)
  | cons ev rest ih =>
    intro s hs hne
    rw [execRun, List.foldl_cons] at hne
    cases ev with
    | errorEv m => exact Or.inl ⟨m, List.mem_cons_self _ _⟩
    | closeEv c =>
      have hs1 : (execStep p tid s (ExecEvent.closeEv c)).settled = none := hs
      have hex1 : (execStep p tid s (ExecEvent.closeEv c)).exitCode = some c := rfl
      rcases ih (execStep p tid s (ExecEvent.closeEv c)) hs1 hne with h | ⟨l, r, hlr, hex, -⟩
      · obtain ⟨m, hm⟩ := h
        exact Or.inl ⟨m, List.mem_cons_of_mem _ hm⟩
      · rw [hex1] at hex
        exact Option.noConfusion hex
    | timeout500 =>
      by_cases hexit : s.exitCode = none
      · exact Or.inr ⟨[], rest, rfl, hexit, fun c hc => (List.not_mem_nil _ hc)⟩
      · have hstep : execStep p tid s ExecEvent.timeout500 = s := by
          unfold execStep
          rw [if_neg hexit]
        rw [hstep] at hne
        rcases ih s hs hne with h | ⟨l, r, hlr, hex, -⟩
        · obtain ⟨m, hm⟩ := h
          exact Or.inl ⟨m, List.mem_cons_of_mem _ hm⟩
        · exact absurd hex hexit

/-- C10: the promise returned by `executeTask` settles only when the
worker is still alive (`proc.exitCode === null`) at the 500 ms check,
or when a process `error` event fires.  In particular, if the worker's
`close` event (with no preceding `error` event, any exit code) arrives
before the 500 ms timer — e.g. a clean exit within the startup window —
the promise is never resolved and never rejected. -/
theorem C10_settle_characterization :
    (∀ (reg0 : List Proc) (mode alc fresh : String) (handle pid : Nat)
       (c : Int) (evs : List ExecEvent),
      (∀ m, ExecEvent.errorEv m ∉ evs) →
      (execRun (execInit reg0 mode alc fresh handle pid).2
        (execInit reg0 mode alc fresh handle pid).2.taskId
        (execInit reg0 mode alc fresh handle pid).1
        (ExecEvent.closeEv c :: evs)).settled = none) ∧
    (∀ (reg0 : List Proc) (mode alc fresh : String) (handle pid : Nat)
       (evs : List ExecEvent),
      (execRun (execInit reg0 mode alc fresh handle pid).2
        (execInit reg0 mode alc fresh handle pid).2.taskId
        (execInit reg0 mode alc fresh handle pid).1 evs).settled ≠ none →
      (∃ m, ExecEvent.errorEv m ∈ evs) ∨
      ∃ l r, evs = l ++ ExecEvent.timeout500 :: r ∧
        ∀ c, ExecEvent.closeEv c ∉ l) := by
  constructor
  · intro reg0 mode alc fresh handle pid c evs hnoerr
    by_contra hne
    rcases execRun_settled_char _ _ (ExecEvent.closeEv c :: evs) _ rfl hne with
      h | ⟨l, r, hlr, -, hl⟩
    · obtain ⟨m, hm⟩ := h
      rcases List.mem_cons.mp hm with hm | hm
      · exact ExecEvent.noConfusion hm
      · exact hnoerr m hm
    · cases l with
      | nil =>
        rw [List.nil_append] at hlr
        exact ExecEvent.noConfusion (List.head_eq_of_cons_eq hlr)
      | cons x l2 =>
        have hx : x = ExecEvent.closeEv c := (List.head_eq_of_cons_eq hlr).symm
        exact hl c (hx ▸ List.mem_cons_self x l2)
  · intro reg0 mode alc fresh handle pid evs hne
    rcases execRun_settled_char _ _ evs _ rfl hne with h | ⟨l, r, hlr, -, hl⟩
    · exact Or.inl h
    · exact Or.inr ⟨l, r, hlr, hl⟩

/-- Closed witness for `C10_settle_characterization`: a clean exit
(code 0) delivered before the 500 ms timer leaves the promise
unsettled. -/
theorem C10_witness :
    (execRun (execInit [] "new" "" "task_f0" 0 100).2
      (execInit [] "new" "" "task_f0" 0 100).2.taskId
      (execInit [] "new" "" "task_f0" 0 100).1
      (ExecEvent.closeEv 0 :: [ExecEvent.timeout500])).settled = none :=
  C10_settle_characterization.1 [] "new" "" "task_f0" 0 100 0
    [ExecEvent.timeout500] (by intro m hm; simp at hm)

/-! ### The `stopTask` operation (POSIX branch)

`stopTask(alchemy_id)` first scans `activeProcesses` for the first
entry whose `taskId` matches; on a hit it sends one SIGTERM
(`process.kill(proc.pid, 'SIGTERM')`), removes the entry and resolves
`{success:true, method:'unix-signal'}` (if `process.kill` throws it
resolves `{success:false, method:'error'}` instead).  There is no
escalation timer anywhere in `stopTask`: the 1000 ms SIGTERM→SIGKILL
escalation exists only in `closeAllProcesses` / the server's `SIGINT`
handler.  On a registry miss it runs discovery: `findPythonProcesses`
yields candidate pids with commandlines; every candidate whose
commandline contains the task id gets `kill -TERM`, setting
`method = 'system-unix-kill'`; the promise always resolves with
`success:true` on this path.

The model below represents the OS process table seen by discovery as a
list of `{pid, commandline}` records, and signal delivery success by a
`killOk` oracle (a signal to an already-exited pid throws, which the
direct path reports as failure and the discovery path swallows).
Output-broadcast side effects of the direct path are elided; the
complete list of signals sent is recorded in `signals`. -/

/-- Signal primitives sent to OS processes (POSIX). -/
inductive Sig where
  | sigterm (pid : Nat)
  | sigkill (pid : Nat)
deriving DecidableEq, Repr

/-- One record of the OS process table, as produced by
`findPythonProcesses` plus the per-pid commandline query. -/
structure OSProc where
  pid : Nat
  commandline : String
deriving DecidableEq, Repr

/-- Containment of one character list in another, the model of
JavaScript `String.prototype.includes`. -/
def charsContain (needle : List Char) : List Char → Bool
  | [] => needle.isEmpty
  | c :: rest => needle.isPrefixOf (c :: rest) || charsContain needle rest

/-- Model of `hay.includes(needle)`. -/
def strIncludes (hay needle : String) : Bool := charsContain needle.data hay.data

/-- The `{success, message, method}` object `stopTask` resolves with. -/
structure StopResult where
  success : Bool
  message : String
  method : String
deriving DecidableEq, Repr

/-- Complete observable outcome of one `stopTask` call: the resolved
result, the registry afterwards, and every signal sent. -/
structure StopOutcome where
  result : StopResult
  reg : List Proc
  signals : List Sig
deriving DecidableEq, Repr

/-- Model of `stopTask(alchemy_id)` (POSIX).  `reg` is
`activeProcesses`, `os` the process table seen by discovery, `killOk`
tells whether a signal to a pid succeeds. -/
def stopTask (reg : List Proc) (os : List OSProc) (killOk : Nat → Bool)
    (alchemy_id : String) : StopOutcome :=
  match reg.find? (fun q => q.taskId == alchemy_id) with
  | some p =>
      if killOk p.pid then
        { result := ⟨true, "已发送终止信号到任务进程", "unix-signal"⟩,
          reg := removeProcess reg p,
          signals := [Sig.sigterm p.pid] }
      else
        { result := ⟨false, "停止任务进程失败", "error"⟩,
          reg := reg,
          signals := [] }
  | none =>
      let killed := os.filter
        (fun q => strIncludes q.commandline alchemy_id && killOk q.pid)
      { result :=
          ⟨true,
           if killed.isEmpty then "任务进程未找到，可能已结束"
           else "已发送终止信号到任务进程",
           if killed.isEmpty then "unknown" else "system-unix-kill"⟩,
        reg := reg,
        signals := killed.map (fun q => Sig.sigterm q.pid) }

/-! ### C2: stop of a tracked running task -/

/-- C2 counterexample: a tracked, running worker (pid 42, which never
exits — `killOk` is irrelevant to any later escalation because there is
none) stopped via `stopTask` receives exactly one SIGTERM and no
SIGKILL, ever: the complete signal list of the operation is
`[sigterm 42]`, so the claimed 1000 ms forceful-kill escalation does
not happen. -/
theorem C2_counterexample :
    (stopTask [⟨0, "T", 42⟩] [] (fun _ => true) "T").signals = [Sig.sigterm 42] ∧
    Sig.sigkill 42 ∉ (stopTask [⟨0, "T", 42⟩] [] (fun _ => true) "T").signals := by
  refine ⟨by decide, by decide⟩

/-- C2 amended: a stop request against a task id tracked in the registry
whose worker is still running sends the graceful SIGTERM immediately and
removes the found registry entry before resolving success; `stopTask`
performs NO 1000 ms SIGKILL escalation — no forceful-kill signal is ever
sent on this path (the SIGTERM→SIGKILL escalation exists only in
`closeAllProcesses` and the server shutdown handler). -/
theorem C2_stop_graceful_no_escalation (reg : List Proc) (os : List OSProc)
    (killOk : Nat → Bool) (id : String) (p : Proc)
    (hfind : reg.find? (fun q => q.taskId == id) = some p)
    (hkill : killOk p.pid = true) :
    (stopTask reg os killOk id).signals = [Sig.sigterm p.pid] ∧
    (∀ pid, Sig.sigkill pid ∉ (stopTask reg os killOk id).signals) ∧
    (stopTask reg os killOk id).result.success = true ∧
    (stopTask reg os killOk id).result.method = "unix-signal" ∧
    p ∉ (stopTask reg os killOk id).reg := by
  have hout : stopTask reg os killOk id =
      { result := ⟨true, "已发送终止信号到任务进程", "unix-signal"⟩,
        reg := removeProcess reg p,
        signals := [Sig.sigterm p.pid] } := by
    unfold stopTask
    rw [hfind]
    show (if killOk p.pid = true then _ else _) = _
    rw [if_pos hkill]
  rw [hout]
  refine ⟨rfl, ?_, rfl, rfl, ?_⟩
  · intro pid hmem
    rw [List.mem_singleton] at hmem
    exact Sig.noConfusion hmem
  · intro hmem
    have := List.of_mem_filter hmem
    simp at this

/-- Closed witness for `C2_stop_graceful_no_escalation`. -/
theorem C2_stop_witness :
    (stopTask [⟨0, "W", 9⟩] [] (fun _ => true) "W").signals = [Sig.sigterm 9] ∧
    (∀ pid, Sig.sigkill pid ∉ (stopTask [⟨0, "W", 9⟩] [] (fun _ => true) "W").signals) ∧
    (stopTask [⟨0, "W", 9⟩] [] (fun _ => true) "W").result.success = true ∧
    (stopTask [⟨0, "W", 9⟩] [] (fun _ => true) "W").result.method = "unix-signal" ∧
    (⟨0, "W", 9⟩ : Proc) ∉ (stopTask [⟨0, "W", 9⟩] [] (fun _ => true) "W").reg :=
  C2_stop_graceful_no_escalation [⟨0, "W", 9⟩] [] (fun _ => true) "W" ⟨0, "W", 9⟩
    (by decide) rfl

/-! ### C5: method reported by the discovery path -/

/-- C5 counterexample: a task id absent from the registry but present in
a discovered worker's commandline is stopped via the discovery path, and
the resolved `method` is the string `"system-unix-kill"` — not
`"discovery"`, and not any of the three documented values
`direct_termination` / `discovery` / `cancel_command`. -/
theorem C5_counterexample :
    (stopTask [] [⟨7, "python examples/alchemy_manager_cli.py --id=abc"⟩]
        (fun _ => true) "abc").result.method = "system-unix-kill" ∧
    (stopTask [] [⟨7, "python examples/alchemy_manager_cli.py --id=abc"⟩]
        (fun _ => true) "abc").result.success = true ∧
    ("system-unix-kill" : String) ≠ "discovery" ∧
    "system-unix-kill" ∉ (["direct_termination", "discovery", "cancel_command"] :
      List String) := by
  refine ⟨by decide, by decide, by decide, by decide⟩

/-- C5 amended: a stop request whose task id is absent from the registry
but contained in the commandline of a discovered worker process succeeds
via the discovery path; the resolved result reports
`method: "system-unix-kill"` on POSIX (`"system-windows-taskkill"` on
Windows) — the values `direct_termination` / `discovery` /
`cancel_command` never occur in the code, whose method vocabulary is
`unknown`, `windows-taskkill`, `unix-signal`, `system-windows-taskkill`,
`system-unix-kill` and `error`. -/
theorem C5_discovery_method (reg : List Proc) (os : List OSProc)
    (killOk : Nat → Bool) (id : String)
    (hfind : reg.find? (fun q => q.taskId == id) = none)
    (hmatch : (os.filter
      (fun q => strIncludes q.commandline id && killOk q.pid)).isEmpty = false) :
    (stopTask reg os killOk id).result.success = true ∧
    (stopTask reg os killOk id).result.method = "system-unix-kill" ∧
    (stopTask reg os killOk id).result.message = "已发送终止信号到任务进程" := by
  unfold stopTask
  rw [hfind]
  simp [hmatch]

/-- Closed witness for `C5_discovery_method`. -/
theorem C5_discovery_witness :
    (stopTask [] [⟨7, "python examples/alchemy_manager_cli.py --id=zz1"⟩]
        (fun _ => true) "zz1").result.success = true ∧
    (stopTask [] [⟨7, "python examples/alchemy_manager_cli.py --id=zz1"⟩]
        (fun _ => true) "zz1").result.method = "system-unix-kill" ∧
    (stopTask [] [⟨7, "python examples/alchemy_manager_cli.py --id=zz1"⟩]
        (fun _ => true) "zz1").result.message = "已发送终止信号到任务进程" :=
  C5_discovery_method [] [⟨7, "python examples/alchemy_manager_cli.py --id=zz1"⟩]
    (fun _ => true) "zz1" rfl (by decide)

/-! ### C6: stop of a task absent everywhere -/

/-- C6: a stop request whose task id is absent from the registry and not
contained in any discovered commandline resolves with `success:true`,
the explanatory not-found message `任务进程未找到，可能已结束` ("task
process not found, it may have already ended") and `method:"unknown"`,
sends no signal and leaves the registry unchanged.  `stopTask` is a
total function in this model, mirroring that the JS implementation
resolves on every path and never throws or rejects (discovery errors are
caught and treated as "no processes"). -/
theorem C6_stop_missing_not_found (reg : List Proc) (os : List OSProc)
    (killOk : Nat → Bool) (id : String)
    (hfind : reg.find? (fun q => q.taskId == id) = none)
    (hnomatch : ∀ q ∈ os, strIncludes q.commandline id = false) :
    (stopTask reg os killOk id).result =
      ⟨true, "任务进程未找到，可能已结束", "unknown"⟩ ∧
    (stopTask reg os killOk id).signals = [] ∧
    (stopTask reg os killOk id).reg = reg := by
  have hfilter : os.filter
      (fun q => strIncludes q.commandline id && killOk q.pid) = [] := by
    rw [List.filter_eq_nil_iff]
    intro q hq
    rw [hnomatch q hq]
    simp
  unfold stopTask
  rw [hfind]
  simp [hfilter]

/-- Closed witness for `C6_stop_missing_not_found`. -/
theorem C6_stop_missing_witness :
    (stopTask [⟨0, "other", 5⟩] [⟨7, "python foo.py --id=other"⟩]
        (fun _ => true) "ghost").result =
      ⟨true, "任务进程未找到，可能已结束", "unknown"⟩ ∧
    (stopTask [⟨0, "other", 5⟩] [⟨7, "python foo.py --id=other"⟩]
        (fun _ => true) "ghost").signals = [] ∧
    (stopTask [⟨0, "other", 5⟩] [⟨7, "python foo.py --id=other"⟩]
        (fun _ => true) "ghost").reg = [⟨0, "other", 5⟩] :=
  C6_stop_missing_not_found [⟨0, "other", 5⟩] [⟨7, "python foo.py --id=other"⟩]
    (fun _ => true) "ghost" (by decide) (by decide)

/-! ### C9: `getTaskIdFromRunningProcess` id-extraction chain

The JavaScript applies, per candidate pid, the regexes
`--id=([a-zA-Z0-9_-]+)`, `alchemy_id=([a-zA-Z0-9_-]+)` and
`alchemy_([a-zA-Z0-9_-]+)` in that order to the commandline, first
match wins; before that it checks the `activeProcesses` registry by
pid, and after all of it falls back to the most recent
`taskOutputHistory` key, then to the sentinel string `"未知任务"`. -/

/-- Membership in the regex character class `[a-zA-Z0-9_-]`. -/
def idChar (c : Char) : Bool :=
  decide (('a' ≤ c ∧ c ≤ 'z') ∨ ('A' ≤ c ∧ c ≤ 'Z') ∨
    ('0' ≤ c ∧ c ≤ '9') ∨ c = '_' ∨ c = '-')

/-- First-match semantics of matching `pat([a-zA-Z0-9_-]+)`: scan left
to right; at the first position where the literal `pat` is followed by a
nonempty run of class characters, capture the maximal such run. -/
def matchAfter (pat : List Char) : List Char → Option (List Char)
  | [] => none
  | c :: rest =>
      if pat.isPrefixOf (c :: rest) ∧
          ((c :: rest).drop pat.length).takeWhile idChar ≠ [] then
        some (((c :: rest).drop pat.length).takeWhile idChar)
      else matchAfter pat rest

/-- The three commandline matchers of `getTaskIdFromRunningProcess`,
tried in source order: `--id=<token>`, then `alchemy_id=<token>`, then
`alchemy_<token>`. -/
def extractIdFromCmdline (cmd : String) : Option String :=
  match matchAfter "--id=".data cmd.data with
  | some tok => some (String.mk tok)
  | none =>
      match matchAfter "alchemy_id=".data cmd.data with
      | some tok => some (String.mk tok)
      | none =>
          match matchAfter "alchemy_".data cmd.data with
          | some tok => some (String.mk tok)
          | none => none

/-- Commandline of a pid as returned by the per-pid `ps` query. -/
def lookupCmd (table : List OSProc) (pid : Nat) : String :=
  match table.find? (fun q => q.pid == pid) with
  | some q => q.commandline
  | none => ""

/-- The per-pid loop: for each candidate pid in order, try the three
matchers on its commandline; return the first success. -/
def extractFromPids (table : List OSProc) : List Nat → Option String
  | [] => none
  | pid :: rest =>
      match extractIdFromCmdline (lookupCmd table pid) with
      | some id => some id
      | none => extractFromPids table rest

/-- Model of `getTaskIdFromRunningProcess(pids)`: registry-by-pid check
first, then the commandline matcher chain, then the most recent
`taskOutputHistory` key (`histKeys` in insertion order), then the
sentinel `"未知任务"`. -/
def getTaskIdFromRunningProcess (reg : List Proc) (histKeys : List String)
    (table : List OSProc) (pids : List Nat) : String :=
  match reg.find? (fun p => pids.contains p.pid) with
  | some p => p.taskId
  | none =>
      match extractFromPids table pids with
      | some id => id
      | none =>
          match histKeys.getLast? with
          | some k => k
          | none => "未知任务"

/-- C9 counterexample: when every extraction step fails, the chain's
final fallback returns the sentinel `"未知任务"` — not the string
`"unknown"` the claim states. -/
theorem C9_counterexample :
    getTaskIdFromRunningProcess [] [] [] [] = "未知任务" ∧
    ("未知任务" : String) ≠ "unknown" := by
  refine ⟨rfl, by decide⟩

/-- C9 amended: the id-extraction chain applies the matchers in the
fixed order `--id=<token>`, `alchemy_id=<token>`, path-segment
`alchemy_<token>`, then the most recent id in the output history, then
the sentinel `"未知任务"` (the Chinese for "unknown task", not the
literal `"unknown"`), returning the first match; for commandline
`python worker.py --id=abc123 --resume` it returns `"abc123"`. -/
theorem C9_extraction_chain_order :
    extractIdFromCmdline "python worker.py --id=abc123 --resume" =
      some "abc123" ∧
    getTaskIdFromRunningProcess [] []
      [⟨7, "python worker.py --id=abc123 --resume"⟩] [7] = "abc123" ∧
    extractIdFromCmdline "run --id=AAA alchemy_id=BBB alchemy_CCC" =
      some "AAA" ∧
    extractIdFromCmdline "run alchemy_id=BBB alchemy_CCC" = some "BBB" ∧
    extractIdFromCmdline "run alchemy_CCC" = some "CCC" ∧
    extractIdFromCmdline "run nothing here" = none ∧
    getTaskIdFromRunningProcess [] ["t1", "t2"] [] [] = "t2" ∧
    getTaskIdFromRunningProcess [] [] [] [] = "未知任务" := by
  refine ⟨by decide, by decide, by decide, by decide, by decide, by decide,
    rfl, rfl⟩

/-! ### C4: `emitTaskOutput` — 100 ms debounced output aggregation

From `src/monitor/modules/taskOutput.js`: each call gets (or creates)
the task's buffer record `{buffer, timeout, isError}`, ORs the error
flag, appends the text to `buffer`, clears any pending flush timer and
schedules a new one 100 ms out.  When a flush timer fires it broadcasts
one `{alchemy_id, output: buffer, isError}` event and resets the record
to `{buffer:'', timeout:null, isError:false}`.

The model makes time explicit: every chunk carries its arrival
timestamp, a pending timer is stored as its absolute deadline
(`timeoutAt = arrival + 100`), and timers whose deadline has passed
fire before the next arrival is processed.  `runOutput` replays a
chunk sequence and then lets every still-pending timer fire. -/

/-- One broadcast `io.emit('taskOutput', {...})` payload. -/
structure Broadcast where
  alchemy_id : String
  output : String
  isError : Bool
deriving DecidableEq, Repr

/-- Per-task buffer record of `outputBuffers`; `timeoutAt` is the
absolute deadline of the pending flush timer (`none` = no timer). -/
structure BufInfo where
  buffer : String
  timeoutAt : Option Nat
  isError : Bool
deriving DecidableEq, Repr

/-- State of the aggregator: the `outputBuffers` map (insertion-ordered
association list, as a JS `Map`) and the broadcasts emitted so far. -/
structure OutState where
  bufs : List (String × BufInfo)
  emitted : List Broadcast
deriving DecidableEq, Repr

/-- Lookup in `outputBuffers`, defaulting to a fresh empty record
(`emitTaskOutput` creates the record on first use). -/
def lookupBuf (bufs : List (String × BufInfo)) (k : String) : BufInfo :=
  match bufs.find? (fun e => e.1 == k) with
  | some e => e.2
  | none => ⟨"", none, false⟩

/-- Replace the record of key `k` (first occurrence), or append it. -/
def setBuf : List (String × BufInfo) → String → BufInfo →
    List (String × BufInfo)
  | [], k, b => [(k, b)]
  | e :: rest, k, b =>
      if e.1 = k then (k, b) :: rest else e :: setBuf rest k b

/-- Fire the flush timer of one record if its deadline satisfies `due`:
broadcast the accumulated buffer and reset the record. -/
def flushEntry (due : Nat → Bool) :
    (String × BufInfo) → (String × BufInfo) × Option Broadcast
  | (k, b) =>
      match b.timeoutAt with
      | some d =>
          if due d then ((k, ⟨"", none, false⟩), some ⟨k, b.buffer, b.isError⟩)
          else ((k, b), none)
      | none => ((k, b), none)

/-- Fire every record whose pending deadline satisfies `due`. -/
def fireList (due : Nat → Bool) :
    List (String × BufInfo) → List (String × BufInfo) × List Broadcast
  | [] => ([], [])
  | e :: rest =>
      let fe := flushEntry due e
      let fr := fireList due rest
      (fe.1 :: fr.1, (match fe.2 with | some b => [b] | none => []) ++ fr.2)

/-- Let every timer with deadline `≤ now` fire. -/
def fireDue (now : Nat) (st : OutState) : OutState :=
  let fr := fireList (fun d => d ≤ now) st.bufs
  ⟨fr.1, st.emitted ++ fr.2⟩

/-- Model of one `emitTaskOutput(alchemy_id, output, isError, io)` call
arriving at time `t`: timers already due have fired; then the error
flag is ORed in, the text appended, and the flush timer rescheduled to
`t + 100`. -/
def emitTaskOutput (st : OutState) (t : Nat) (alchemy_id output : String)
    (isError : Bool) : OutState :=
  let st1 := fireDue t st
  let b := lookupBuf st1.bufs alchemy_id
  ⟨setBuf st1.bufs alchemy_id
      ⟨b.buffer ++ output, some (t + 100), b.isError || isError⟩,
    st1.emitted⟩

/-- One chunk handed to `emitTaskOutput`, with its arrival time. -/
structure Chunk where
  t : Nat
  id : String
  text : String
  isError : Bool
deriving DecidableEq, Repr

/-- Let every still-pending timer fire (time passes beyond every
deadline). -/
def fireAll (st : OutState) : OutState :=
  let fr := fireList (fun _ => true) st.bufs
  ⟨fr.1, st.emitted ++ fr.2⟩

/-- Replay a chunk sequence from the empty aggregator state, then let
all pending timers fire. -/
def runOutput (evs : List Chunk) : OutState :=
  fireAll (evs.foldl (fun st c => emitTaskOutput st c.t c.id c.text c.isError)
    ⟨[], []⟩)

/-- Concatenation of a list of strings, in order. -/
def concatAll : List String → String
  | [] => ""
  | s :: rest => s ++ concatAll rest

/-- In-order concatenation of everything broadcast for task `k`. -/
def emittedFor (k : String) (st : OutState) : String :=
  concatAll ((st.emitted.filter (fun b => b.alchemy_id == k)).map
    Broadcast.output)

/-- In-order concatenation of every chunk text produced for task `k`. -/
def chunksFor (k : String) (evs : List Chunk) : String :=
  concatAll ((evs.filter (fun c => c.id == k)).map Chunk.text)

theorem concatAll_append (l1 l2 : List String) :
    concatAll (l1 ++ l2) = concatAll l1 ++ concatAll l2 := by
  induction l1 with
  | nil => simp [concatAll]
  | cons s rest ih =>
    show s ++ concatAll (rest ++ l2) = (s ++ concatAll rest) ++ concatAll l2
    rw [ih, String.append_assoc]

/-- Text currently buffered (not yet broadcast) for task `k`. -/
def bufText (k : String) (st : OutState) : String :=
  (lookupBuf st.bufs k).buffer

/-- Pending-timer discipline of `outputBuffers`: a record without a
pending flush timer has an empty buffer (every append schedules a
timer, every flush resets the record). -/
def TimerWF (l : List (String × BufInfo)) : Prop :=
  ∀ e ∈ l, e.2.timeoutAt = none → e.2.buffer = ""

theorem flushEntry_fst (due : Nat → Bool) (e : String × BufInfo) :
    (flushEntry due e).1.1 = e.1 := by
  obtain ⟨k, buf, ta, ie⟩ := e
  cases ta with
  | none => rfl
  | some d =>
    by_cases hd : due d = true
    · simp [flushEntry, hd]
    · simp [flushEntry, hd]

theorem flushEntry_emit_key (due : Nat → Bool) (e : String × BufInfo)
    (b : Broadcast) (h : (flushEntry due e).2 = some b) :
    b.alchemy_id = e.1 := by
  obtain ⟨k, buf, ta, ie⟩ := e
  cases ta with
  | none => exact Option.noConfusion h
  | some d =>
    by_cases hd : due d = true
    · simp only [flushEntry, hd, if_true, Option.some.injEq] at h
      rw [← h]
    · simp [flushEntry, hd] at h

theorem fireList_keys (due : Nat → Bool) (l : List (String × BufInfo)) :
    (fireList due l).1.map Prod.fst = l.map Prod.fst := by
  induction l with
  | nil => rfl
  | cons e rest ih =>
    show (flushEntry due e).1.1 :: (fireList due rest).1.map Prod.fst =
      e.1 :: rest.map Prod.fst
    rw [flushEntry_fst, ih]

theorem fireList_emit_keys (due : Nat → Bool) (l : List (String × BufInfo))
    (b : Broadcast) (h : b ∈ (fireList due l).2) :
    b.alchemy_id ∈ l.map Prod.fst := by
  induction l with
  | nil => exact absurd h (List.not_mem_nil b)
  | cons e rest ih =>
    have h2 : b ∈ (match (flushEntry due e).2 with
        | some x => [x] | none => []) ++ (fireList due rest).2 := h
    rcases List.mem_append.mp h2 with hl | hr
    · cases hfe : (flushEntry due e).2 with
      | none => rw [hfe] at hl; exact absurd hl (List.not_mem_nil b)
      | some x =>
        rw [hfe] at hl
        rw [List.mem_singleton] at hl
        subst hl
        rw [flushEntry_emit_key due e b hfe]
        exact List.mem_cons_self _ _
    · exact List.mem_cons_of_mem _ (ih hr)

theorem fireList_accounting (due : Nat → Bool) (l : List (String × BufInfo))
    (k : String) (hnd : (l.map Prod.fst).Nodup) :
    concatAll (((fireList due l).2.filter
        (fun b => b.alchemy_id == k)).map Broadcast.output) ++
      (lookupBuf (fireList due l).1 k).buffer =
    (lookupBuf l k).buffer := by
  induction l with
  | nil =>
    show ("" : String) ++ "" = ""
    rw [String.append_empty]
  | cons e rest ih =>
    rw [List.map_cons, List.nodup_cons] at hnd
    obtain ⟨hknot, hndrest⟩ := hnd
    have hsplit : (fireList due (e :: rest)).2 =
        (match (flushEntry due e).2 with | some x => [x] | none => []) ++
          (fireList due rest).2 := rfl
    have hfst : (fireList due (e :: rest)).1 =
        (flushEntry due e).1 :: (fireList due rest).1 := rfl
    by_cases hk : e.1 = k
    · -- entry `e` is the (unique) record with key `k`
      have hnok : (fireList due rest).2.filter
          (fun b => b.alchemy_id == k) = [] := by
        rw [List.filter_eq_nil_iff]
        intro b hb hbk
        rw [beq_iff_eq] at hbk
        have hmem := fireList_emit_keys due rest b hb
        rw [hbk, ← hk] at hmem
        exact hknot hmem
      have hfind : List.find? (fun x => x.1 == k)
          ((flushEntry due e).1 :: (fireList due rest).1) =
          some (flushEntry due e).1 :=
        List.find?_cons_of_pos _ (by rw [flushEntry_fst]; simp [hk])
      have hlook : lookupBuf (fireList due (e :: rest)).1 k =
          (flushEntry due e).1.2 := by
        unfold lookupBuf
        rw [hfst, hfind]
      have hfind0 : List.find? (fun x => x.1 == k) (e :: rest) = some e :=
        List.find?_cons_of_pos _ (by simp [hk])
      have hlook0 : lookupBuf (e :: rest) k = e.2 := by
        unfold lookupBuf
        rw [hfind0]
      rw [hsplit, hlook, hlook0, List.filter_append, hnok, List.append_nil]
      obtain ⟨k0, buf, ta, ie⟩ := e
      have hk0 : k0 = k := hk
      cases ta with
      | none =>
        show ("" : String) ++ buf = buf
        rw [String.empty_append]
      | some d =>
        by_cases hd : due d = true
        · have hfe : flushEntry due (k0, ⟨buf, some d, ie⟩) =
              ((k0, ⟨"", none, false⟩), some ⟨k0, buf, ie⟩) := by
            show (if due d = true then _ else _) = _
            rw [if_pos hd]
          rw [hfe]
          have hfl : List.filter (fun b : Broadcast => b.alchemy_id == k)
              [⟨k0, buf, ie⟩] = [⟨k0, buf, ie⟩] := by
            simp [hk0]
          show concatAll (List.map Broadcast.output
            (List.filter (fun b => b.alchemy_id == k) [⟨k0, buf, ie⟩])) ++
              "" = buf
          rw [hfl]
          show (buf ++ "") ++ "" = buf
          rw [String.append_empty, String.append_empty]
        · have hfe : flushEntry due (k0, ⟨buf, some d, ie⟩) =
              ((k0, ⟨buf, some d, ie⟩), none) := by
            show (if due d = true then _ else _) = _
            rw [if_neg hd]
          rw [hfe]
          show ("" : String) ++ buf = buf
          rw [String.empty_append]
    · -- entry `e` has a different key; nothing of it counts for `k`
      have hfilter1 : ((match (flushEntry due e).2 with
          | some x => [x] | none => []) : List Broadcast).filter
            (fun b => b.alchemy_id == k) = [] := by
        cases hfe : (flushEntry due e).2 with
        | none => rfl
        | some x =>
          have hneg : (x.alchemy_id == k) = false := by
            rw [flushEntry_emit_key due e x hfe]
            simp [hk]
          show List.filter (fun b => b.alchemy_id == k) [x] = []
          rw [List.filter_cons_of_neg (by simp [hneg])]
          rfl
      have hfind : List.find? (fun x => x.1 == k)
          ((flushEntry due e).1 :: (fireList due rest).1) =
          List.find? (fun x => x.1 == k) (fireList due rest).1 :=
        List.find?_cons_of_neg _ (by rw [flushEntry_fst]; simp [hk])
      have hlook : lookupBuf (fireList due (e :: rest)).1 k =
          lookupBuf (fireList due rest).1 k := by
        unfold lookupBuf
        rw [hfst, hfind]
      have hfind0 : List.find? (fun x => x.1 == k) (e :: rest) =
          List.find? (fun x => x.1 == k) rest :=
        List.find?_cons_of_neg _ (by simp [hk])
      have hlook0 : lookupBuf (e :: rest) k = lookupBuf rest k := by
        unfold lookupBuf
        rw [hfind0]
      rw [hsplit, List.filter_append, hfilter1, List.nil_append, hlook, hlook0]
      exact ih hndrest

theorem lookupBuf_cons_self (e : String × BufInfo)
    (rest : List (String × BufInfo)) (k : String) (he : e.1 = k) :
    lookupBuf (e :: rest) k = e.2 := by
  have hfind : List.find? (fun x => x.1 == k) (e :: rest) = some e :=
    List.find?_cons_of_pos _ (by simp [he])
  unfold lookupBuf
  rw [hfind]

theorem lookupBuf_cons_other (e : String × BufInfo)
    (rest : List (String × BufInfo)) (k : String) (he : ¬ e.1 = k) :
    lookupBuf (e :: rest) k = lookupBuf rest k := by
  have hfind : List.find? (fun x => x.1 == k) (e :: rest) =
      List.find? (fun x => x.1 == k) rest :=
    List.find?_cons_of_neg _ (by simp [he])
  unfold lookupBuf
  rw [hfind]

theorem setBuf_cons_pos (e : String × BufInfo) (rest : List (String × BufInfo))
    (k : String) (b : BufInfo) (he : e.1 = k) :
    setBuf (e :: rest) k b = (k, b) :: rest := by
  show (if e.1 = k then (k, b) :: rest else e :: setBuf rest k b) = _
  rw [if_pos he]

theorem setBuf_cons_neg (e : String × BufInfo) (rest : List (String × BufInfo))
    (k : String) (b : BufInfo) (he : ¬ e.1 = k) :
    setBuf (e :: rest) k b = e :: setBuf rest k b := by
  show (if e.1 = k then (k, b) :: rest else e :: setBuf rest k b) = _
  rw [if_neg he]

theorem lookupBuf_setBuf_self (l : List (String × BufInfo)) (k : String)
    (b : BufInfo) : lookupBuf (setBuf l k b) k = b := by
  induction l with
  | nil => exact lookupBuf_cons_self (k, b) [] k rfl
  | cons e rest ih =>
    by_cases he : e.1 = k
    · rw [setBuf_cons_pos e rest k b he]
      exact lookupBuf_cons_self (k, b) rest k rfl
    · rw [setBuf_cons_neg e rest k b he, lookupBuf_cons_other e _ k he]
      exact ih

theorem lookupBuf_setBuf_other (l : List (String × BufInfo)) (k k2 : String)
    (b : BufInfo) (hne : ¬ k2 = k) :
    lookupBuf (setBuf l k b) k2 = lookupBuf l k2 := by
  induction l with
  | nil =>
    show lookupBuf [(k, b)] k2 = lookupBuf [] k2
    rw [lookupBuf_cons_other (k, b) [] k2 (fun h => hne h.symm)]
  | cons e rest ih =>
    by_cases he : e.1 = k
    · rw [setBuf_cons_pos e rest k b he,
          lookupBuf_cons_other (k, b) rest k2 (fun h => hne h.symm),
          lookupBuf_cons_other e rest k2 (by rw [he]; exact fun h => hne h.symm)]
    · rw [setBuf_cons_neg e rest k b he]
      by_cases he2 : e.1 = k2
      · rw [lookupBuf_cons_self e _ k2 he2, lookupBuf_cons_self e rest k2 he2]
      · rw [lookupBuf_cons_other e _ k2 he2,
            lookupBuf_cons_other e rest k2 he2]
        exact ih

theorem setBuf_keys_sub (l : List (String × BufInfo)) (k : String)
    (b : BufInfo) :
    ∀ x ∈ (setBuf l k b).map Prod.fst, x = k ∨ x ∈ l.map Prod.fst := by
  induction l with
  | nil =>
    intro x hx
    rw [show setBuf [] k b = [(k, b)] from rfl] at hx
    rw [List.map_singleton, List.mem_singleton] at hx
    exact Or.inl hx
  | cons e rest ih =>
    intro x hx
    by_cases he : e.1 = k
    · rw [setBuf_cons_pos e rest k b he, List.map_cons] at hx
      rcases List.mem_cons.mp hx with h1 | h1
      · exact Or.inl h1
      · exact Or.inr (List.mem_cons_of_mem _ h1)
    · rw [setBuf_cons_neg e rest k b he, List.map_cons] at hx
      rcases List.mem_cons.mp hx with h1 | h1
      · exact Or.inr (h1 ▸ List.mem_cons_self _ _)
      · rcases ih x h1 with h2 | h2
        · exact Or.inl h2
        · exact Or.inr (List.mem_cons_of_mem _ h2)

theorem setBuf_keys_nodup (l : List (String × BufInfo)) (k : String)
    (b : BufInfo) (h : (l.map Prod.fst).Nodup) :
    ((setBuf l k b).map Prod.fst).Nodup := by
  induction l with
  | nil => simp [setBuf]
  | cons e rest ih =>
    rw [List.map_cons, List.nodup_cons] at h
    obtain ⟨hnot, hrest⟩ := h
    by_cases he : e.1 = k
    · rw [setBuf_cons_pos e rest k b he, List.map_cons, List.nodup_cons]
      exact ⟨he ▸ hnot, hrest⟩
    · rw [setBuf_cons_neg e rest k b he, List.map_cons, List.nodup_cons]
      refine ⟨?_, ih hrest⟩
      intro hmem
      rcases setBuf_keys_sub rest k b e.1 hmem with h1 | h1
      · exact he h1
      · exact hnot h1

theorem setBuf_mem (l : List (String × BufInfo)) (k : String) (b : BufInfo) :
    ∀ x ∈ setBuf l k b, x = (k, b) ∨ x ∈ l := by
  induction l with
  | nil =>
    intro x hx
    rw [show setBuf [] k b = [(k, b)] from rfl, List.mem_singleton] at hx
    exact Or.inl hx
  | cons e rest ih =>
    intro x hx
    by_cases he : e.1 = k
    · rw [setBuf_cons_pos e rest k b he] at hx
      rcases List.mem_cons.mp hx with h1 | h1
      · exact Or.inl h1
      · exact Or.inr (List.mem_cons_of_mem _ h1)
    · rw [setBuf_cons_neg e rest k b he] at hx
      rcases List.mem_cons.mp hx with h1 | h1
      · exact Or.inr (h1 ▸ List.mem_cons_self _ _)
      · rcases ih x h1 with h2 | h2
        · exact Or.inl h2
        · exact Or.inr (List.mem_cons_of_mem _ h2)

theorem timerWF_fireList (due : Nat → Bool) :
    ∀ l : List (String × BufInfo), TimerWF l → TimerWF (fireList due l).1 := by
  intro l
  induction l with
  | nil => intro _ x hx; exact absurd hx (List.not_mem_nil x)
  | cons e rest ih =>
    intro h x hx
    have hx2 : x ∈ (flushEntry due e).1 :: (fireList due rest).1 := hx
    rcases List.mem_cons.mp hx2 with h1 | h1
    · subst h1
      obtain ⟨k, buf, ta, ie⟩ := e
      cases ta with
      | none =>
        intro _
        exact h (k, ⟨buf, none, ie⟩) (List.mem_cons_self _ _) rfl
      | some d =>
        by_cases hd : due d = true
        · simp [flushEntry, hd]
        · simp [flushEntry, hd]
    · exact ih (fun y hy => h y (List.mem_cons_of_mem e hy)) x h1

theorem timerWF_setBuf (l : List (String × BufInfo)) (k : String)
    (b : BufInfo) (h : TimerWF l) (d : Nat) (hb : b.timeoutAt = some d) :
    TimerWF (setBuf l k b) := by
  intro x hx
  rcases setBuf_mem l k b x hx with h1 | h1
  · subst h1
    intro hta
    rw [hb] at hta
    exact Option.noConfusion hta
  · exact h x h1

theorem fireAll_buffer_empty (k : String) :
    ∀ l : List (String × BufInfo), TimerWF l →
      (lookupBuf (fireList (fun _ => true) l).1 k).buffer = "" := by
  intro l
  induction l with
  | nil => intro _; rfl
  | cons e rest ih =>
    intro h
    have hfst : (fireList (fun _ => true) (e :: rest)).1 =
        (flushEntry (fun _ => true) e).1 ::
          (fireList (fun _ => true) rest).1 := rfl
    by_cases he : e.1 = k
    · rw [hfst, lookupBuf_cons_self _ _ k (by rw [flushEntry_fst]; exact he)]
      obtain ⟨k0, buf, ta, ie⟩ := e
      cases ta with
      | none => exact h (k0, ⟨buf, none, ie⟩) (List.mem_cons_self _ _) rfl
      | some d => simp [flushEntry]
    · rw [hfst, lookupBuf_cons_other _ _ k (by rw [flushEntry_fst]; exact he)]
      exact ih (fun y hy => h y (List.mem_cons_of_mem e hy))

theorem fireState_accounting (due : Nat → Bool) (s : OutState) (k : String)
    (hnd : (s.bufs.map Prod.fst).Nodup) :
    emittedFor k ⟨(fireList due s.bufs).1,
        s.emitted ++ (fireList due s.bufs).2⟩ ++
      bufText k ⟨(fireList due s.bufs).1,
        s.emitted ++ (fireList due s.bufs).2⟩ =
    emittedFor k s ++ bufText k s := by
  unfold emittedFor bufText
  rw [show (⟨(fireList due s.bufs).1, s.emitted ++ (fireList due s.bufs).2⟩ :
      OutState).emitted = s.emitted ++ (fireList due s.bufs).2 from rfl]
  rw [show (⟨(fireList due s.bufs).1, s.emitted ++ (fireList due s.bufs).2⟩ :
      OutState).bufs = (fireList due s.bufs).1 from rfl]
  rw [List.filter_append, List.map_append, concatAll_append,
    String.append_assoc, fireList_accounting due s.bufs k hnd]

theorem fireDue_accounting (t : Nat) (s : OutState) (k : String)
    (hnd : (s.bufs.map Prod.fst).Nodup) :
    emittedFor k (fireDue t s) ++ bufText k (fireDue t s) =
    emittedFor k s ++ bufText k s :=
  fireState_accounting (fun d => d ≤ t) s k hnd

theorem fireAll_accounting (s : OutState) (k : String)
    (hnd : (s.bufs.map Prod.fst).Nodup) :
    emittedFor k (fireAll s) ++ bufText k (fireAll s) =
    emittedFor k s ++ bufText k s :=
  fireState_accounting (fun _ => true) s k hnd

theorem fireAll_bufText (s : OutState) (k : String) (h : TimerWF s.bufs) :
    bufText k (fireAll s) = "" :=
  fireAll_buffer_empty k s.bufs h

theorem nodup_emitTaskOutput (s : OutState) (t : Nat) (cid ctext : String)
    (cerr : Bool) (hnd : (s.bufs.map Prod.fst).Nodup) :
    ((emitTaskOutput s t cid ctext cerr).bufs.map Prod.fst).Nodup := by
  show ((setBuf (fireDue t s).bufs cid
      ⟨(lookupBuf (fireDue t s).bufs cid).buffer ++ ctext, some (t + 100),
        (lookupBuf (fireDue t s).bufs cid).isError || cerr⟩).map
      Prod.fst).Nodup
  apply setBuf_keys_nodup
  have hkeys : (fireDue t s).bufs.map Prod.fst = s.bufs.map Prod.fst :=
    fireList_keys _ s.bufs
  rw [hkeys]
  exact hnd

theorem timerWF_emitTaskOutput (s : OutState) (t : Nat) (cid ctext : String)
    (cerr : Bool) (h : TimerWF s.bufs) :
    TimerWF (emitTaskOutput s t cid ctext cerr).bufs := by
  show TimerWF (setBuf (fireDue t s).bufs cid
    ⟨(lookupBuf (fireDue t s).bufs cid).buffer ++ ctext, some (t + 100),
      (lookupBuf (fireDue t s).bufs cid).isError || cerr⟩)
  exact timerWF_setBuf _ _ _ (timerWF_fireList _ s.bufs h) (t + 100) rfl

theorem emitTaskOutput_accounting (s : OutState) (t : Nat) (cid ctext : String)
    (cerr : Bool) (k : String) (hnd : (s.bufs.map Prod.fst).Nodup) :
    emittedFor k (emitTaskOutput s t cid ctext cerr) ++
      bufText k (emitTaskOutput s t cid ctext cerr) =
    (emittedFor k s ++ bufText k s) ++ (if cid == k then ctext else "") := by
  have hem : emittedFor k (emitTaskOutput s t cid ctext cerr) =
      emittedFor k (fireDue t s) := rfl
  have hfd := fireDue_accounting t s k hnd
  by_cases hc : cid = k
  · have hcb : (cid == k) = true := by simp [hc]
    rw [if_pos hcb]
    have hbt : bufText k (emitTaskOutput s t cid ctext cerr) =
        bufText k (fireDue t s) ++ ctext := by
      show (lookupBuf (setBuf (fireDue t s).bufs cid
          ⟨(lookupBuf (fireDue t s).bufs cid).buffer ++ ctext, some (t + 100),
            (lookupBuf (fireDue t s).bufs cid).isError || cerr⟩) k).buffer =
        (lookupBuf (fireDue t s).bufs k).buffer ++ ctext
      rw [← hc, lookupBuf_setBuf_self]
    rw [hem, hbt, ← String.append_assoc, hfd]
  · have hcb : (cid == k) = false := by simp [hc]
    rw [if_neg (by rw [hcb]; exact Bool.false_ne_true), String.append_empty]
    have hbt : bufText k (emitTaskOutput s t cid ctext cerr) =
        bufText k (fireDue t s) := by
      show (lookupBuf (setBuf (fireDue t s).bufs cid
          ⟨(lookupBuf (fireDue t s).bufs cid).buffer ++ ctext, some (t + 100),
            (lookupBuf (fireDue t s).bufs cid).isError || cerr⟩) k).buffer =
        (lookupBuf (fireDue t s).bufs k).buffer
      rw [lookupBuf_setBuf_other _ _ _ _ (fun h => hc h.symm)]
    rw [hem, hbt, hfd]

theorem chunksFor_cons (k : String) (c : Chunk) (rest : List Chunk) :
    chunksFor k (c :: rest) =
      (if c.id == k then c.text else "") ++ chunksFor k rest := by
  cases hc : (c.id == k) with
  | true => simp [chunksFor, List.filter_cons, hc, concatAll]
  | false => simp [chunksFor, List.filter_cons, hc]

theorem runOutput_fold_accounting (evs : List Chunk) :
    ∀ (s : OutState) (k : String), (s.bufs.map Prod.fst).Nodup →
      emittedFor k (evs.foldl
          (fun s c => emitTaskOutput s c.t c.id c.text c.isError) s) ++
        bufText k (evs.foldl
          (fun s c => emitTaskOutput s c.t c.id c.text c.isError) s) =
      (emittedFor k s ++ bufText k s) ++ chunksFor k evs := by
  induction evs with
  | nil =>
    intro s k _
    rw [List.foldl_nil, show chunksFor k [] = "" from rfl, String.append_empty]
  | cons c rest ih =>
    intro s k hnd
    rw [List.foldl_cons,
      ih (emitTaskOutput s c.t c.id c.text c.isError) k
        (nodup_emitTaskOutput s c.t c.id c.text c.isError hnd),
      emitTaskOutput_accounting s c.t c.id c.text c.isError k hnd,
      chunksFor_cons, String.append_assoc]

theorem fold_wf (evs : List Chunk) :
    ∀ s : OutState, (s.bufs.map Prod.fst).Nodup → TimerWF s.bufs →
      ((evs.foldl (fun s c => emitTaskOutput s c.t c.id c.text c.isError)
          s).bufs.map Prod.fst).Nodup ∧
      TimerWF (evs.foldl
        (fun s c => emitTaskOutput s c.t c.id c.text c.isError) s).bufs := by
  induction evs with
  | nil => intro s h1 h2; exact ⟨h1, h2⟩
  | cons c rest ih =>
    intro s h1 h2
    rw [List.foldl_cons]
    exact ih (emitTaskOutput s c.t c.id c.text c.isError)
      (nodup_emitTaskOutput s c.t c.id c.text c.isError h1)
      (timerWF_emitTaskOutput s c.t c.id c.text c.isError h2)

/-- C4: output chunks passed to `emitTaskOutput` are broadcast in
arrival order — for every task, the in-order concatenation of its
broadcast texts equals the in-order concatenation of its chunk texts —
and chunks arriving within one 100 ms quiescence window are merged into
a single broadcast: for the two chunks `"Processing "` then
`"complete\n"` arriving 10 ms apart for task `t1`, exactly one
broadcast, `{alchemy_id:"t1", output:"Processing complete\n",
isError:false}`, is emitted once the debounce window elapses. -/
theorem C4_debounce_merge_order :
    (runOutput [⟨0, "t1", "Processing ", false⟩,
        ⟨10, "t1", "complete\n", false⟩]).emitted =
      [⟨"t1", "Processing complete\n", false⟩] ∧
    ∀ (evs : List Chunk) (k : String),
      emittedFor k (runOutput evs) = chunksFor k evs := by
  constructor
  · rfl
  · intro evs k
    obtain ⟨hnd, hwfT⟩ := fold_wf evs ⟨[], []⟩ (by simp)
      (fun e he => absurd he (List.not_mem_nil e))
    have hfold := runOutput_fold_accounting evs ⟨[], []⟩ k (by simp)
    rw [show emittedFor k (⟨[], []⟩ : OutState) = "" from rfl,
      show bufText k (⟨[], []⟩ : OutState) = "" from rfl,
      String.append_empty, String.empty_append] at hfold
    have hfa := fireAll_accounting
      (evs.foldl (fun s c => emitTaskOutput s c.t c.id c.text c.isError)
        ⟨[], []⟩) k hnd
    have hempty := fireAll_bufText
      (evs.foldl (fun s c => emitTaskOutput s c.t c.id c.text c.isError)
        ⟨[], []⟩) k hwfT
    have hrun : emittedFor k (runOutput evs) =
        emittedFor k (fireAll (evs.foldl
          (fun s c => emitTaskOutput s c.t c.id c.text c.isError)
          ⟨[], []⟩)) := rfl
    rw [hrun, ← String.append_empty (emittedFor k (fireAll _)), ← hempty,
      hfa, hfold]

/-! ### C7: supervisor shutdown (`SIGINT` handler in `server.js`)

The handler closes the file watchers, sends every active child its
termination signal (with, on POSIX, a 1000 ms `SIGKILL` follow-up timer
guarded by `proc.killed`), then waits on a promise that polls
`activeProcesses.size` every 100 ms, resolving when it reaches zero and
in any case at the 3000 ms soft deadline — where, if processes remain,
it logs the single warning `` `${activeProcesses.size} 个子进程未能正常
终止` `` (a count, with no task ids).  After the promise resolves it
closes Socket.IO and the HTTP server and calls `process.exit(0)`; an
unconditional second timer calls `process.exit(1)` at the 5000 ms hard
deadline, so the supervisor exits by then no matter how long the
transport takes to close.

The model keeps each worker's observable behaviour as the time at which
it actually exits (`none` = it survives every signal), and the unknowable
transport-close duration as the parameter `closeDelay`. -/

/-- A supervised worker as seen by the shutdown handler. -/
structure Worker where
  taskId : String
  pid : Nat
  exitsAt : Option Nat
deriving DecidableEq, Repr

/-- Is the worker still alive at time `t` (ms after SIGINT)? -/
def aliveAt (w : Worker) (t : Nat) : Bool :=
  match w.exitsAt with
  | none => true
  | some e => t < e

/-- The value of `activeProcesses.size` at time `t`. -/
def activeCount (ws : List Worker) (t : Nat) : Nat :=
  (ws.filter (fun w => aliveAt w t)).length

/-- When the drain promise resolves: the first 100 ms poll at which the
registry is empty (the k = 0 entry models the synchronous initial
check), or the 3000 ms soft deadline. -/
def drainResolveTime (ws : List Worker) : Nat :=
  match (List.range 31).find? (fun k => activeCount ws (100 * k) == 0) with
  | some k => 100 * k
  | none => 3000

/-- Warnings logged by the shutdown handler: exactly one — a count of
surviving children, naming no task — when processes remain at the
3000 ms soft deadline, none otherwise. -/
def shutdownWarnings (ws : List Worker) : List String :=
  if activeCount ws 3000 > 0 then
    [toString (activeCount ws 3000) ++ " 个子进程未能正常终止"]
  else []

/-- Time and exit code of `process.exit`: the normal path
(drain resolve + transport close, code 0) if it beats the unconditional
5000 ms hard-deadline timer (code 1). -/
def supervisorExit (ws : List Worker) (closeDelay : Nat) : Nat × Nat :=
  if drainResolveTime ws + closeDelay ≤ 5000 then
    (drainResolveTime ws + closeDelay, 0)
  else (5000, 1)

/-- C7 counterexample: shutdown with three registered tasks of which
`T3` never exits completes within the 5 s hard deadline and logs exactly
one warning — but the warning is `1 个子进程未能正常终止` ("1 child
process failed to terminate"), a count that does not name the surviving
task `T3`, contradicting the claim that the warning names it. -/
theorem C7_counterexample :
    (supervisorExit [⟨"T1", 1, some 200⟩, ⟨"T2", 2, some 300⟩,
        ⟨"T3", 3, none⟩] 0).1 ≤ 5000 ∧
    shutdownWarnings [⟨"T1", 1, some 200⟩, ⟨"T2", 2, some 300⟩,
        ⟨"T3", 3, none⟩] = ["1 个子进程未能正常终止"] ∧
    strIncludes "1 个子进程未能正常终止" "T3" = false := by
  refine ⟨by decide, by decide, by decide⟩

/-- C7 amended: whenever supervisor shutdown is initiated while tasks
are registered and at least one worker never exits, the shutdown still
completes — the supervisor process exits — within the 5 s hard deadline
(the unconditional `process.exit` timer guarantees it for every
transport-close delay), and exactly one warning is logged at the 3 s
soft deadline; the warning states the NUMBER of surviving child
processes and does not name any task. -/
theorem C7_shutdown_deadline_and_warning (ws : List Worker)
    (closeDelay : Nat) (w : Worker) (hw : w ∈ ws) (hnever : w.exitsAt = none) :
    (supervisorExit ws closeDelay).1 ≤ 5000 ∧
    shutdownWarnings ws =
      [toString (activeCount ws 3000) ++ " 个子进程未能正常终止"] ∧
    (shutdownWarnings ws).length = 1 := by
  have hpos : activeCount ws 3000 > 0 := by
    have halive : aliveAt w 3000 = true := by
      unfold aliveAt
      rw [hnever]
    have hmem : w ∈ ws.filter (fun w => aliveAt w 3000) :=
      List.mem_filter.mpr ⟨hw, halive⟩
    exact List.length_pos.mpr (List.ne_nil_of_mem hmem)
  have hexit : (supervisorExit ws closeDelay).1 ≤ 5000 := by
    unfold supervisorExit
    by_cases h : drainResolveTime ws + closeDelay ≤ 5000
    · rw [if_pos h]
      exact h
    · rw [if_neg h]
  have hwarn : shutdownWarnings ws =
      [toString (activeCount ws 3000) ++ " 个子进程未能正常终止"] := by
    unfold shutdownWarnings
    rw [if_pos hpos]
  exact ⟨hexit, hwarn, by rw [hwarn]; rfl⟩

/-- Closed witness for `C7_shutdown_deadline_and_warning`. -/
theorem C7_shutdown_witness :
    (supervisorExit [⟨"A", 1, some 100⟩, ⟨"B", 2, none⟩] 50).1 ≤ 5000 ∧
    shutdownWarnings [⟨"A", 1, some 100⟩, ⟨"B", 2, none⟩] =
      [toString (activeCount [⟨"A", 1, some 100⟩, ⟨"B", 2, none⟩] 3000) ++
        " 个子进程未能正常终止"] ∧
    (shutdownWarnings [⟨"A", 1, some 100⟩, ⟨"B", 2, none⟩]).length = 1 :=
  C7_shutdown_deadline_and_warning [⟨"A", 1, some 100⟩, ⟨"B", 2, none⟩] 50
    ⟨"B", 2, none⟩ (by decide) rfl

end Datamind
